import Mathlib

/-!
Verification of the core of SoftRT (src/SoftRT.cpp): a software ray tracer.
Floats are modelled as exact real numbers; `sqrtf` becomes `Real.sqrt`.
The windowing boilerplate and the pixel sink are outside the modelled core.
-/

namespace SoftRT

open Classical

noncomputable section

/-- `kEpsilon` from SoftRT.cpp line 8: `const float kEpsilon = 0.00001f;`. -/
def kEpsilon : ℝ := 1 / 100000

/-- Largest finite 32-bit float, the sentinel `FLT_MAX` used by `TraceRayRecurse`. -/
def FLT_MAX : ℝ := 340282346638528859811704183484516925440

/-- `class Vector3` (SoftRT.cpp lines 10-69): three floats. -/
@[ext] structure Vector3 where
  x : ℝ
  y : ℝ
  z : ℝ

namespace Vector3

/-- `float Dot(const Vector3& rhs) const` (line 26). -/
def Dot (v rhs : Vector3) : ℝ := v.x * rhs.x + v.y * rhs.y + v.z * rhs.z

/-- `float Length() const` (line 31): `sqrtf(Dot(*this))`. -/
def Length (v : Vector3) : ℝ := Real.sqrt (v.Dot v)

/-- `operator-` (line 36), component-wise. -/
instance : Sub Vector3 := ⟨fun v rhs => ⟨v.x - rhs.x, v.y - rhs.y, v.z - rhs.z⟩⟩

/-- `operator+` (line 41), component-wise. -/
instance : Add Vector3 := ⟨fun v rhs => ⟨v.x + rhs.x, v.y + rhs.y, v.z + rhs.z⟩⟩

/-- `operator*(const Vector3&)` (line 46), component-wise. -/
instance : Mul Vector3 := ⟨fun v rhs => ⟨v.x * rhs.x, v.y * rhs.y, v.z * rhs.z⟩⟩

/-- `operator*(float)` (line 51), scale by scalar. -/
instance : HMul Vector3 ℝ Vector3 := ⟨fun v rhs => ⟨v.x * rhs, v.y * rhs, v.z * rhs⟩⟩

/-- `Vector3 Normalize() const` (line 56): `*this * (1.0f / Length())`. -/
def Normalize (v : Vector3) : Vector3 := v * ((1 : ℝ) / v.Length)

/-- `float Distance(const Vector3& rhs)` (line 61). -/
def Distance (v rhs : Vector3) : ℝ := (v - rhs).Length

end Vector3

/-- `class Ray` (lines 71-76). -/
structure Ray where
  origin : Vector3
  direction : Vector3

/-- `class Material` (lines 78-83). -/
structure Material where
  color : Vector3
  roughness : ℝ

/-- `class Sphere` (lines 85-91); the `const Material*` reference is embedded
as the material value itself (materials are immutable during a render). -/
structure Sphere where
  center : Vector3
  radius : ℝ
  material : Material

/-- `Lerp` (lines 93-97) at the `Vector3` instantiation used by the tracer:
`val0 + (val1 - val0) * t`. -/
def Lerp (val0 val1 : Vector3) (t : ℝ) : Vector3 := val0 + (val1 - val0) * t

/-- `float Saturate(float in)` (lines 99-102). -/
def Saturate (i : ℝ) : ℝ := if i < 0 then 0 else if i > 1 then 1 else i

/-- `float Max(float a, float b)` (lines 104-107). -/
def Max (a b : ℝ) : ℝ := if a > b then a else b

/-- Quadratic coefficient `a` of `Intersect` (line 113):
`ray.direction.Dot(ray.direction)`. -/
def coeffA (ray : Ray) : ℝ := ray.direction.Dot ray.direction

/-- Quadratic coefficient `b` of `Intersect` (line 114):
`2.0f * ray.direction.Dot(rayOriginToSphereCenter)`. -/
def coeffB (ray : Ray) (sphere : Sphere) : ℝ :=
  2 * ray.direction.Dot (ray.origin - sphere.center)

/-- Quadratic coefficient `c` of `Intersect` (line 115). -/
def coeffC (ray : Ray) (sphere : Sphere) : ℝ :=
  (ray.origin - sphere.center).Dot (ray.origin - sphere.center) -
    sphere.radius * sphere.radius

/-- `discriminant` local of `Intersect` (line 116): `b * b - 4.0f * a * c`. -/
def discriminant (ray : Ray) (sphere : Sphere) : ℝ :=
  coeffB ray sphere * coeffB ray sphere - 4 * coeffA ray * coeffC ray sphere

/-- Root `t0` of `Intersect` (line 126): `(-1.0f * b + sqrtf(discriminant)) / (2.0f * a)`. -/
def root0 (ray : Ray) (sphere : Sphere) : ℝ :=
  (-1 * coeffB ray sphere + Real.sqrt (discriminant ray sphere)) / (2 * coeffA ray)

/-- Root `t1` of `Intersect` (line 134): `(-1.0f * b - sqrtf(discriminant)) / (2.0f * a)`. -/
def root1 (ray : Ray) (sphere : Sphere) : ℝ :=
  (-1 * coeffB ray sphere - Real.sqrt (discriminant ray sphere)) / (2 * coeffA ray)

/-- `std::vector<Vector3> Intersect(const Ray&, const Sphere&)` (lines 109-149).
The locals `a`, `b`, `c`, `discriminant`, `t0`, `t1` are factored out as the
definitions above; `std::swap(result[0], result[1])` is the final `match`. -/
def Intersect (ray : Ray) (sphere : Sphere) : List Vector3 :=
  if discriminant ray sphere < 0 then []
  else
    let r0 : List Vector3 :=
      if root0 ray sphere ≥ 0 then [ray.origin + ray.direction * root0 ray sphere] else []
    if discriminant ray sphere > kEpsilon then
      if root1 ray sphere ≥ 0 then
        let r := r0 ++ [ray.origin + ray.direction * root1 ray sphere]
        if (root0 ray sphere ≥ 0 ∧ root1 ray sphere ≥ 0) ∧
            root1 ray sphere < root0 ray sphere then
          match r with
          | p0 :: p1 :: rest => p1 :: p0 :: rest
          | other => other
        else r
      else r0
    else r0

/-- `bool TraceRayOcclusion(const Ray&, const std::vector<Sphere>&)` (lines 151-162):
returns on the first sphere whose intersection list is non-empty. -/
def TraceRayOcclusion (ray : Ray) : List Sphere → Bool
  | [] => false
  | sphere :: rest =>
      if Intersect ray sphere ≠ [] then true else TraceRayOcclusion ray rest

/-- `LightDir` (line 164): `Vector3{1,1,-1}.Normalize()`. -/
def LightDir : Vector3 := (Vector3.mk 1 1 (-1)).Normalize

/-- `SkyCol` (line 165): `Vector3{0.75f, 0.75f, 1.0f}`. -/
def SkyCol : Vector3 := ⟨3/4, 3/4, 1⟩

/-- The mutable locals of the closest-hit loop of `TraceRayRecurse`
(lines 183-188): `closestDist`, `normal`, `intersection`, `color`, `eye`,
`roughness`. -/
structure HitState where
  closestDist : ℝ
  normal : Vector3
  intersection : Vector3
  color : Vector3
  eye : Vector3
  roughness : ℝ

/-- Initial values of the loop locals (lines 183-188): `closestDist = FLT_MAX`,
`normal = {0,1,0}`, the rest zero. -/
def initHit : HitState :=
  ⟨FLT_MAX, ⟨0, 1, 0⟩, ⟨0, 0, 0⟩, ⟨0, 0, 0⟩, ⟨0, 0, 0⟩, 0⟩

/-- The assignments in the `dist < closestDist` branch (lines 199-204). -/
def hitRecord (cameraPosition : Vector3) (sphere : Sphere) (p : Vector3) : HitState where
  closestDist := (p - cameraPosition).Length
  normal := (p - sphere.center).Normalize
  intersection := p
  color := sphere.material.color
  eye := (p - cameraPosition).Normalize
  roughness := sphere.material.roughness

/-- One iteration of the closest-hit loop (lines 190-207). -/
def scanSphere (ray : Ray) (cameraPosition : Vector3) (st : HitState)
    (sphere : Sphere) : HitState :=
  match Intersect ray sphere with
  | [] => st
  | p :: _ =>
      if (p - cameraPosition).Length < st.closestDist then
        hitRecord cameraPosition sphere p
      else st

/-- The whole closest-hit loop of `TraceRayRecurse` (lines 190-207). -/
def closestHit (ray : Ray) (spheres : List Sphere) (cameraPosition : Vector3) :
    HitState :=
  spheres.foldl (scanSphere ray cameraPosition) initHit

/-- `Vector3 origin = intersection + normal * 0.001f;` (line 219). -/
def shadeOrigin (st : HitState) : Vector3 :=
  st.intersection + st.normal * ((1 : ℝ) / 1000)

/-- `float occlusion = TraceRayOcclusion({origin, LightDir}, spheres) ? 0.0f : 1.0f;`
(line 221). -/
def occlusionFactor (st : HitState) (spheres : List Sphere) : ℝ :=
  if TraceRayOcclusion ⟨shadeOrigin st, LightDir⟩ spheres = true then 0 else 1

/-- The shadow-attenuated diffuse term (lines 209-210, 222):
`max(0, normal.Dot(LightDir)) * occlusion`. -/
def diffuseTerm (st : HitState) (spheres : List Sphere) : ℝ :=
  (if st.normal.Dot LightDir ≥ 0 then st.normal.Dot LightDir else 0) *
    occlusionFactor st spheres

/-- `Vector3 half = ((eye * -1.0f) + LightDir).Normalize();` (line 212). -/
def halfVec (st : HitState) : Vector3 :=
  ((st.eye * (-1 : ℝ)) + LightDir).Normalize

/-- The shadow-attenuated specular term (lines 213-217, 223):
`powf(max(0, normal.Dot(half)), 128) * occlusion`. -/
def specularTerm (st : HitState) (spheres : List Sphere) : ℝ :=
  (if st.normal.Dot (halfVec st) < 0 then 0 else st.normal.Dot (halfVec st)) ^ (128 : ℕ) *
    occlusionFactor st spheres

/-- `Vector3 diffuseColor = color * Max(diffuse, ambient);` (lines 225-226),
with `ambient = 0.15f`. -/
def diffuseColorTerm (st : HitState) (spheres : List Sphere) : Vector3 :=
  st.color * Max (diffuseTerm st spheres) (15 / 100 : ℝ)

/-- `Vector3 TraceRayRecurse(const Ray&, const std::vector<Sphere>&, const Vector3&, int)`
(lines 181-255). The closest-hit loop is `closestHit`; the local lighting terms
are the definitions above; `numSamples = 1`, so the sampling loop is the single
recursive call and the final `result * (1.0f / numSamples)`. -/
def TraceRayRecurse (ray : Ray) (spheres : List Sphere) (cameraPosition : Vector3)
    (recurse : ℤ) : Vector3 :=
  if (closestHit ray spheres cameraPosition).closestDist = FLT_MAX then SkyCol
  else
    if _hrec : recurse < 8 then
      Lerp (diffuseColorTerm (closestHit ray spheres cameraPosition) spheres *
          (closestHit ray spheres cameraPosition).roughness +
        (TraceRayRecurse
            ⟨shadeOrigin (closestHit ray spheres cameraPosition),
              (closestHit ray spheres cameraPosition).normal⟩ spheres
            cameraPosition (recurse + 1) * ((1 : ℝ) / 1)) *
          (1 - (closestHit ray spheres cameraPosition).roughness))
        ⟨1, 1, 1⟩ (specularTerm (closestHit ray spheres cameraPosition) spheres)
    else
      Lerp (diffuseColorTerm (closestHit ray spheres cameraPosition) spheres)
        ⟨1, 1, 1⟩ (specularTerm (closestHit ray spheres cameraPosition) spheres)
termination_by (8 - recurse).toNat
decreasing_by omega

/-- Number of `TraceRayRecurse` invocations performed by a call, mirroring the
branch structure of lines 228-254: terminal branches count 1, the recursive
branch adds the count of its single recursive call at `recurse + 1`. -/
def TraceRayCallCount (ray : Ray) (spheres : List Sphere) (cameraPosition : Vector3)
    (recurse : ℤ) : ℕ :=
  if (closestHit ray spheres cameraPosition).closestDist = FLT_MAX then 1
  else
    if _hrec : recurse < 8 then
      1 + TraceRayCallCount
        ⟨shadeOrigin (closestHit ray spheres cameraPosition),
          (closestHit ray spheres cameraPosition).normal⟩ spheres
        cameraPosition (recurse + 1)
    else 1
termination_by (8 - recurse).toNat
decreasing_by omega

/-- Every channel of the color lies in `[0, 1]`. -/
def inUnit (v : Vector3) : Prop :=
  0 ≤ v.x ∧ v.x ≤ 1 ∧ 0 ≤ v.y ∧ v.y ≤ 1 ∧ 0 ≤ v.z ∧ v.z ≤ 1

end

@[simp] theorem Vector3.sub_x (a b : Vector3) : (a - b).x = a.x - b.x := rfl
@[simp] theorem Vector3.sub_y (a b : Vector3) : (a - b).y = a.y - b.y := rfl
@[simp] theorem Vector3.sub_z (a b : Vector3) : (a - b).z = a.z - b.z := rfl
@[simp] theorem Vector3.add_x (a b : Vector3) : (a + b).x = a.x + b.x := rfl
@[simp] theorem Vector3.add_y (a b : Vector3) : (a + b).y = a.y + b.y := rfl
@[simp] theorem Vector3.add_z (a b : Vector3) : (a + b).z = a.z + b.z := rfl
@[simp] theorem Vector3.mul_x (a b : Vector3) : (a * b).x = a.x * b.x := rfl
@[simp] theorem Vector3.mul_y (a b : Vector3) : (a * b).y = a.y * b.y := rfl
@[simp] theorem Vector3.mul_z (a b : Vector3) : (a * b).z = a.z * b.z := rfl
@[simp] theorem Vector3.smul_x (a : Vector3) (s : ℝ) : (a * s).x = a.x * s := rfl
@[simp] theorem Vector3.smul_y (a : Vector3) (s : ℝ) : (a * s).y = a.y * s := rfl
@[simp] theorem Vector3.smul_z (a : Vector3) (s : ℝ) : (a * s).z = a.z * s := rfl

theorem Vector3.dot_self_nonneg (v : Vector3) : 0 ≤ v.Dot v := by
  have h : v.Dot v = v.x ^ 2 + v.y ^ 2 + v.z ^ 2 := by
    simp only [Vector3.Dot]; ring
  rw [h]; positivity

theorem Vector3.length_nonneg (v : Vector3) : 0 ≤ v.Length :=
  Real.sqrt_nonneg _

theorem Vector3.dot_self_pos {v : Vector3} (hv : v ≠ ⟨0, 0, 0⟩) : 0 < v.Dot v := by
  rcases (Vector3.dot_self_nonneg v).lt_or_eq with h | h
  · exact h
  · exfalso
    apply hv
    have hd : v.x * v.x + v.y * v.y + v.z * v.z = 0 := by
      simpa [Vector3.Dot] using h.symm
    have hx : v.x = 0 := by nlinarith [sq_nonneg v.x, sq_nonneg v.y, sq_nonneg v.z]
    have hy : v.y = 0 := by nlinarith [sq_nonneg v.x, sq_nonneg v.y, sq_nonneg v.z]
    have hz : v.z = 0 := by nlinarith [sq_nonneg v.x, sq_nonneg v.y, sq_nonneg v.z]
    ext <;> simp [hx, hy, hz]

theorem root1_le_root0 {ray : Ray} {sphere : Sphere} (ha : 0 < coeffA ray) :
    root1 ray sphere ≤ root0 ray sphere := by
  unfold root0 root1
  have hs : 0 ≤ Real.sqrt (discriminant ray sphere) := Real.sqrt_nonneg _
  have h2a : (0 : ℝ) < 2 * coeffA ray := by linarith
  exact (div_le_div_iff_of_pos_right h2a).mpr (by linarith)

theorem root1_lt_root0 {ray : Ray} {sphere : Sphere} (ha : 0 < coeffA ray)
    (hd : 0 < discriminant ray sphere) :
    root1 ray sphere < root0 ray sphere := by
  unfold root0 root1
  have hs : 0 < Real.sqrt (discriminant ray sphere) := Real.sqrt_pos.mpr hd
  have h2a : (0 : ℝ) < 2 * coeffA ray := by linarith
  exact (div_lt_div_iff_of_pos_right h2a).mpr (by linarith)

/-- C1: for a ray with non-zero direction, `Intersect` returns 0, 1, or 2
points, each equal to `origin + direction * t` for some `t ≥ 0`, and when two
points are returned their parameters are in ascending order, so the first
element is the nearer valid intersection point. -/
theorem intersect_sound (ray : Ray) (sphere : Sphere)
    (hdir : ray.direction ≠ ⟨0, 0, 0⟩) :
    Intersect ray sphere = [] ∨
    (∃ t : ℝ, 0 ≤ t ∧ Intersect ray sphere = [ray.origin + ray.direction * t]) ∨
    (∃ ta tb : ℝ, 0 ≤ ta ∧ ta ≤ tb ∧
      Intersect ray sphere =
        [ray.origin + ray.direction * ta, ray.origin + ray.direction * tb]) := by
  have ha : 0 < coeffA ray := Vector3.dot_self_pos hdir
  by_cases hneg : discriminant ray sphere < 0
  · left; simp [Intersect, hneg]
  · have hd0 : 0 ≤ discriminant ray sphere := not_lt.mp hneg
    have h10 : root1 ray sphere ≤ root0 ray sphere := root1_le_root0 ha
    by_cases heps : discriminant ray sphere > kEpsilon
    · by_cases h1 : root1 ray sphere ≥ 0
      · have h0 : root0 ray sphere ≥ 0 := le_trans h1 h10
        have hlt : root1 ray sphere < root0 ray sphere :=
          root1_lt_root0 ha (lt_trans (by norm_num [kEpsilon]) heps)
        right; right
        exact ⟨root1 ray sphere, root0 ray sphere, h1, le_of_lt hlt,
          by simp [Intersect, hneg, heps, h1, h0, hlt]⟩
      · by_cases h0 : root0 ray sphere ≥ 0
        · right; left
          exact ⟨root0 ray sphere, h0, by simp [Intersect, hneg, heps, h1, h0]⟩
        · left; simp [Intersect, hneg, heps, h1, h0]
    · by_cases h0 : root0 ray sphere ≥ 0
      · right; left
        exact ⟨root0 ray sphere, h0, by simp [Intersect, hneg, heps, h0]⟩
      · left; simp [Intersect, hneg, heps, h0]

/-- Witness for C1: a concrete ray with non-zero direction and a concrete sphere. -/
theorem intersect_sound_witness :
    (Ray.mk ⟨0, 0, 0⟩ ⟨0, 0, 1⟩).direction ≠ (⟨0, 0, 0⟩ : Vector3) ∧
    (Intersect (Ray.mk ⟨0, 0, 0⟩ ⟨0, 0, 1⟩) (Sphere.mk ⟨0, 0, 2⟩ 1 ⟨⟨1, 0, 0⟩, 1⟩) = [] ∨
     (∃ t : ℝ, 0 ≤ t ∧
        Intersect (Ray.mk ⟨0, 0, 0⟩ ⟨0, 0, 1⟩) (Sphere.mk ⟨0, 0, 2⟩ 1 ⟨⟨1, 0, 0⟩, 1⟩) =
          [(⟨0, 0, 0⟩ : Vector3) + (⟨0, 0, 1⟩ : Vector3) * t]) ∨
     (∃ ta tb : ℝ, 0 ≤ ta ∧ ta ≤ tb ∧
        Intersect (Ray.mk ⟨0, 0, 0⟩ ⟨0, 0, 1⟩) (Sphere.mk ⟨0, 0, 2⟩ 1 ⟨⟨1, 0, 0⟩, 1⟩) =
          [(⟨0, 0, 0⟩ : Vector3) + (⟨0, 0, 1⟩ : Vector3) * ta,
           (⟨0, 0, 0⟩ : Vector3) + (⟨0, 0, 1⟩ : Vector3) * tb])) :=
  have hne : (Ray.mk ⟨0, 0, 0⟩ ⟨0, 0, 1⟩).direction ≠ (⟨0, 0, 0⟩ : Vector3) := by
    intro h
    have hz := congrArg Vector3.z h
    norm_num at hz
  ⟨hne, intersect_sound _ _ hne⟩

/-- C3 counterexample: a ray exactly tangent to a sphere (discriminant `= 0`,
inside `[0, kEpsilon]`) whose tangent point lies behind the origin; `Intersect`
returns zero points, not exactly one. -/
theorem tangent_counterexample :
    discriminant (Ray.mk ⟨0, 0, 0⟩ ⟨0, 0, 1⟩) (Sphere.mk ⟨0, 1, -1⟩ 1 ⟨⟨1, 0, 0⟩, 1⟩) = 0 ∧
    Intersect (Ray.mk ⟨0, 0, 0⟩ ⟨0, 0, 1⟩) (Sphere.mk ⟨0, 1, -1⟩ 1 ⟨⟨1, 0, 0⟩, 1⟩) = [] := by
  have hd : discriminant (Ray.mk ⟨0, 0, 0⟩ ⟨0, 0, 1⟩)
      (Sphere.mk ⟨0, 1, -1⟩ 1 ⟨⟨1, 0, 0⟩, 1⟩) = 0 := by
    norm_num [discriminant, coeffA, coeffB, coeffC, Vector3.Dot]
  have hr0 : root0 (Ray.mk ⟨0, 0, 0⟩ ⟨0, 0, 1⟩)
      (Sphere.mk ⟨0, 1, -1⟩ 1 ⟨⟨1, 0, 0⟩, 1⟩) = -1 := by
    rw [root0, hd]
    norm_num [coeffA, coeffB, Vector3.Dot]
  refine ⟨hd, ?_⟩
  rw [Intersect, hd, hr0]
  norm_num [kEpsilon]

/-- C3 amended: whenever the discriminant lies within `[0, kEpsilon]`,
`Intersect` returns at most one point: exactly the point at parameter `t0`
when `t0 ≥ 0`, and no point at all when `t0 < 0` (tangent point behind the
origin); never two near-duplicate points. -/
theorem tangent_at_most_one (ray : Ray) (sphere : Sphere)
    (h0 : 0 ≤ discriminant ray sphere) (h1 : discriminant ray sphere ≤ kEpsilon) :
    (Intersect ray sphere).length ≤ 1 ∧
    (0 ≤ root0 ray sphere →
      Intersect ray sphere = [ray.origin + ray.direction * root0 ray sphere]) ∧
    (root0 ray sphere < 0 → Intersect ray sphere = []) := by
  have hneg : ¬ discriminant ray sphere < 0 := not_lt.mpr h0
  have heps : ¬ discriminant ray sphere > kEpsilon := not_lt.mpr h1
  refine ⟨?_, ?_, ?_⟩
  · by_cases hr : root0 ray sphere ≥ 0 <;> simp [Intersect, hneg, heps, hr]
  · intro hr; simp [Intersect, hneg, heps, ge_iff_le, hr]
  · intro hr
    have hr' : ¬ root0 ray sphere ≥ 0 := not_le.mpr hr
    simp [Intersect, hneg, heps, hr']

/-- Witness for C3's amended theorem: a concrete exactly-tangent configuration
with the tangent point in front of the origin. -/
theorem tangent_at_most_one_witness :
    0 ≤ discriminant (Ray.mk ⟨0, 0, 0⟩ ⟨0, 0, 1⟩) (Sphere.mk ⟨0, 1, 1⟩ 1 ⟨⟨1, 0, 0⟩, 1⟩) ∧
    discriminant (Ray.mk ⟨0, 0, 0⟩ ⟨0, 0, 1⟩) (Sphere.mk ⟨0, 1, 1⟩ 1 ⟨⟨1, 0, 0⟩, 1⟩) ≤ kEpsilon ∧
    ((Intersect (Ray.mk ⟨0, 0, 0⟩ ⟨0, 0, 1⟩) (Sphere.mk ⟨0, 1, 1⟩ 1 ⟨⟨1, 0, 0⟩, 1⟩)).length ≤ 1 ∧
     (0 ≤ root0 (Ray.mk ⟨0, 0, 0⟩ ⟨0, 0, 1⟩) (Sphere.mk ⟨0, 1, 1⟩ 1 ⟨⟨1, 0, 0⟩, 1⟩) →
        Intersect (Ray.mk ⟨0, 0, 0⟩ ⟨0, 0, 1⟩) (Sphere.mk ⟨0, 1, 1⟩ 1 ⟨⟨1, 0, 0⟩, 1⟩) =
          [(⟨0, 0, 0⟩ : Vector3) + (⟨0, 0, 1⟩ : Vector3) *
            root0 (Ray.mk ⟨0, 0, 0⟩ ⟨0, 0, 1⟩) (Sphere.mk ⟨0, 1, 1⟩ 1 ⟨⟨1, 0, 0⟩, 1⟩)]) ∧
     (root0 (Ray.mk ⟨0, 0, 0⟩ ⟨0, 0, 1⟩) (Sphere.mk ⟨0, 1, 1⟩ 1 ⟨⟨1, 0, 0⟩, 1⟩) < 0 →
        Intersect (Ray.mk ⟨0, 0, 0⟩ ⟨0, 0, 1⟩) (Sphere.mk ⟨0, 1, 1⟩ 1 ⟨⟨1, 0, 0⟩, 1⟩) = [])) :=
  have hd : discriminant (Ray.mk ⟨0, 0, 0⟩ ⟨0, 0, 1⟩)
      (Sphere.mk ⟨0, 1, 1⟩ 1 ⟨⟨1, 0, 0⟩, 1⟩) = 0 := by
    norm_num [discriminant, coeffA, coeffB, coeffC, Vector3.Dot]
  ⟨by rw [hd], by rw [hd]; norm_num [kEpsilon],
   tangent_at_most_one _ _ (by rw [hd]) (by rw [hd]; norm_num [kEpsilon])⟩

theorem Vector3.dot_smul_smul (u v : Vector3) (s t : ℝ) :
    (u * s).Dot (v * t) = u.Dot v * (s * t) := by
  simp [Vector3.Dot]; ring

theorem Vector3.smul_dot (u : Vector3) (s : ℝ) (v : Vector3) :
    (u * s).Dot v = u.Dot v * s := by
  simp [Vector3.Dot]; ring

theorem Vector3.sub_dot_sub_symm (u v : Vector3) :
    (u - v).Dot (u - v) = (v - u).Dot (v - u) := by
  simp [Vector3.Dot]; ring

theorem Vector3.sub_dot_swap (u v : Vector3) :
    (u - v).Dot (v - u) = -((v - u).Dot (v - u)) := by
  simp [Vector3.Dot]; ring

theorem Vector3.add_sub_cancel_left (o w : Vector3) : (o + w) - o = w := by
  ext <;> simp

/-- C2 counterexample: origin `(0,0,0)` outside the sphere of radius `1/1000`
centered at `C = (0,0,1)`, direction `(0,0,1) = C - origin` aimed directly at
`C`; the discriminant `4·10⁻⁶` falls under the tangency guard `kEpsilon`, so
`Intersect` returns exactly 1 point, not 2. -/
theorem aimed_ray_counterexample :
    ((⟨0, 0, 0⟩ : Vector3) - ⟨0, 0, 1⟩).Length > (1 / 1000 : ℝ) ∧
    (Ray.mk ⟨0, 0, 0⟩ ⟨0, 0, 1⟩).direction = (⟨0, 0, 1⟩ : Vector3) - ⟨0, 0, 0⟩ ∧
    (Intersect (Ray.mk ⟨0, 0, 0⟩ ⟨0, 0, 1⟩)
      (Sphere.mk ⟨0, 0, 1⟩ (1 / 1000) ⟨⟨1, 0, 0⟩, 1⟩)).length = 1 := by
  refine ⟨?_, by ext <;> norm_num, ?_⟩
  · have h : ((⟨0, 0, 0⟩ : Vector3) - ⟨0, 0, 1⟩).Dot ((⟨0, 0, 0⟩ : Vector3) - ⟨0, 0, 1⟩) = 1 := by
      norm_num [Vector3.Dot]
    rw [Vector3.Length, h, Real.sqrt_one]
    norm_num
  · have hd : discriminant (Ray.mk ⟨0, 0, 0⟩ ⟨0, 0, 1⟩)
        (Sphere.mk ⟨0, 0, 1⟩ (1 / 1000) ⟨⟨1, 0, 0⟩, 1⟩) = 1 / 250000 := by
      norm_num [discriminant, coeffA, coeffB, coeffC, Vector3.Dot]
    have hr0 : root0 (Ray.mk ⟨0, 0, 0⟩ ⟨0, 0, 1⟩)
        (Sphere.mk ⟨0, 0, 1⟩ (1 / 1000) ⟨⟨1, 0, 0⟩, 1⟩) = 1001 / 1000 := by
      rw [root0, hd, show (1 / 250000 : ℝ) = (1 / 500) ^ 2 by norm_num,
        Real.sqrt_sq (by norm_num : (0 : ℝ) ≤ 1 / 500)]
      norm_num [coeffA, coeffB, Vector3.Dot]
    rw [Intersect, hd, hr0]
    norm_num [kEpsilon]

/-- C2 amended: for a ray from `o` aimed directly at the center `C` of a sphere
of radius `r` (direction `(C - o) * k`, `k > 0`), with `o` outside the sphere
(`|o - C| = D > r ≥ 0`), and provided the discriminant `4k²D²r²` exceeds the
tangency guard `kEpsilon`, `Intersect` returns exactly 2 points: the first at
distance `D - r` from the origin and the second at distance `D + r`. -/
theorem aimed_ray_two_hits (o C : Vector3) (m : Material) (k r D : ℝ)
    (hk : 0 < k) (hr : 0 ≤ r)
    (hD : (o - C).Dot (o - C) = D ^ 2) (hD0 : 0 ≤ D) (hout : r < D)
    (hdisc : kEpsilon < 4 * k ^ 2 * D ^ 2 * r ^ 2) :
    (o - C).Length = D ∧
    ∃ p q : Vector3,
      Intersect (Ray.mk o ((C - o) * k)) (Sphere.mk C r m) = [p, q] ∧
      (p - o).Length = D - r ∧ (q - o).Length = D + r := by
  have hDpos : 0 < D := lt_of_le_of_lt hr hout
  have hrpos : 0 < r := by
    rcases hr.lt_or_eq with h | h
    · exact h
    · exfalso; rw [← h] at hdisc; norm_num [kEpsilon] at hdisc
  have hA : coeffA (Ray.mk o ((C - o) * k)) = k ^ 2 * D ^ 2 := by
    show ((C - o) * k).Dot ((C - o) * k) = _
    rw [Vector3.dot_smul_smul, ← Vector3.sub_dot_sub_symm, hD]; ring
  have hB : coeffB (Ray.mk o ((C - o) * k)) (Sphere.mk C r m) = -2 * k * D ^ 2 := by
    show 2 * (((C - o) * k).Dot (o - C)) = _
    rw [Vector3.smul_dot, Vector3.sub_dot_swap, hD]; ring
  have hC : coeffC (Ray.mk o ((C - o) * k)) (Sphere.mk C r m) = D ^ 2 - r ^ 2 := by
    show (o - C).Dot (o - C) - r * r = _
    rw [hD]; ring
  have hDisc : discriminant (Ray.mk o ((C - o) * k)) (Sphere.mk C r m) =
      4 * k ^ 2 * D ^ 2 * r ^ 2 := by
    rw [discriminant, hB, hC, hA]; ring
  have hsqrt : Real.sqrt (discriminant (Ray.mk o ((C - o) * k)) (Sphere.mk C r m)) =
      2 * k * D * r := by
    rw [hDisc, show 4 * k ^ 2 * D ^ 2 * r ^ 2 = (2 * k * D * r) ^ 2 by ring,
      Real.sqrt_sq (by positivity)]
  have hkD : (0 : ℝ) < k * D := by positivity
  have ht0 : root0 (Ray.mk o ((C - o) * k)) (Sphere.mk C r m) = (D + r) / (k * D) := by
    rw [root0, hB, hsqrt, hA]
    field_simp
    ring
  have ht1 : root1 (Ray.mk o ((C - o) * k)) (Sphere.mk C r m) = (D - r) / (k * D) := by
    rw [root1, hB, hsqrt, hA]
    field_simp
    ring
  have ht1pos : root1 (Ray.mk o ((C - o) * k)) (Sphere.mk C r m) ≥ 0 := by
    rw [ht1]; exact div_nonneg (by linarith) (le_of_lt hkD)
  have ht0pos : root0 (Ray.mk o ((C - o) * k)) (Sphere.mk C r m) ≥ 0 := by
    rw [ht0]; exact div_nonneg (by linarith) (le_of_lt hkD)
  have hlt : root1 (Ray.mk o ((C - o) * k)) (Sphere.mk C r m) <
      root0 (Ray.mk o ((C - o) * k)) (Sphere.mk C r m) := by
    rw [ht0, ht1]
    exact (div_lt_div_iff_of_pos_right hkD).mpr (by linarith)
  have heps : discriminant (Ray.mk o ((C - o) * k)) (Sphere.mk C r m) > kEpsilon := by
    rw [hDisc]; exact hdisc
  have hneg : ¬ discriminant (Ray.mk o ((C - o) * k)) (Sphere.mk C r m) < 0 := by
    rw [hDisc]; exact not_lt.mpr (by positivity)
  have hdd : ((C - o) * k).Dot ((C - o) * k) = k ^ 2 * D ^ 2 := hA
  have hlen : ∀ t : ℝ, 0 ≤ t →
      ((o + ((C - o) * k) * t) - o).Length = k * D * t := by
    intro t ht
    rw [Vector3.add_sub_cancel_left, Vector3.Length, Vector3.dot_smul_smul, hdd,
      show k ^ 2 * D ^ 2 * (t * t) = (k * D * t) ^ 2 by ring,
      Real.sqrt_sq (by positivity)]
  have hk' : k ≠ 0 := ne_of_gt hk
  have hD' : D ≠ 0 := ne_of_gt hDpos
  refine ⟨by rw [Vector3.Length, hD, Real.sqrt_sq hD0],
    o + ((C - o) * k) * root1 (Ray.mk o ((C - o) * k)) (Sphere.mk C r m),
    o + ((C - o) * k) * root0 (Ray.mk o ((C - o) * k)) (Sphere.mk C r m),
    ?_, ?_, ?_⟩
  · simp [Intersect, hneg, heps, ht1pos, ht0pos, hlt]
  · rw [hlen _ ht1pos, ht1]
    field_simp
  · rw [hlen _ ht0pos, ht0]
    field_simp

/-- Witness for C2's amended theorem: origin `(0,0,0)`, sphere of radius 1 at
`(0,0,2)`, direction aimed at the center with `k = 1`, `D = 2`. -/
theorem aimed_ray_two_hits_witness :
    (0 : ℝ) < 1 ∧ (0 : ℝ) ≤ 1 ∧
    ((⟨0, 0, 0⟩ : Vector3) - ⟨0, 0, 2⟩).Dot ((⟨0, 0, 0⟩ : Vector3) - ⟨0, 0, 2⟩) = (2 : ℝ) ^ 2 ∧
    (0 : ℝ) ≤ 2 ∧ (1 : ℝ) < 2 ∧ kEpsilon < 4 * (1 : ℝ) ^ 2 * 2 ^ 2 * 1 ^ 2 ∧
    (((⟨0, 0, 0⟩ : Vector3) - ⟨0, 0, 2⟩).Length = 2 ∧
     ∃ p q : Vector3,
       Intersect (Ray.mk ⟨0, 0, 0⟩ (((⟨0, 0, 2⟩ : Vector3) - ⟨0, 0, 0⟩) * (1 : ℝ)))
         (Sphere.mk ⟨0, 0, 2⟩ 1 ⟨⟨1, 0, 0⟩, 1⟩) = [p, q] ∧
       (p - (⟨0, 0, 0⟩ : Vector3)).Length = 2 - 1 ∧
       (q - (⟨0, 0, 0⟩ : Vector3)).Length = 2 + 1) :=
  ⟨one_pos, zero_le_one, by norm_num [Vector3.Dot], by norm_num, one_lt_two,
   by norm_num [kEpsilon],
   aimed_ray_two_hits ⟨0, 0, 0⟩ ⟨0, 0, 2⟩ ⟨⟨1, 0, 0⟩, 1⟩ 1 1 2 one_pos zero_le_one
     (by norm_num [Vector3.Dot]) (by norm_num) one_lt_two (by norm_num [kEpsilon])⟩

@[simp] theorem hitRecord_closestDist (cam : Vector3) (s : Sphere) (p : Vector3) :
    (hitRecord cam s p).closestDist = (p - cam).Length := rfl

@[simp] theorem initHit_closestDist : initHit.closestDist = FLT_MAX := rfl

theorem closestHit_def (ray : Ray) (spheres : List Sphere) (cam : Vector3) :
    closestHit ray spheres cam = spheres.foldl (scanSphere ray cam) initHit := rfl

/-- Invariant of the closest-hit loop: the final state is either the initial
state or the record of some hitting sphere of the list, its `closestDist`
never increases, and it is a lower bound of the camera distance of the first
intersection point of every hitting sphere of the list. -/
theorem foldl_scan_spec (ray : Ray) (cam : Vector3) :
    ∀ (l : List Sphere) (st : HitState),
      (l.foldl (scanSphere ray cam) st = st ∨
        ∃ s ∈ l, ∃ p t, Intersect ray s = p :: t ∧
          l.foldl (scanSphere ray cam) st = hitRecord cam s p) ∧
      (l.foldl (scanSphere ray cam) st).closestDist ≤ st.closestDist ∧
      (∀ s ∈ l, ∀ p t, Intersect ray s = p :: t →
        (l.foldl (scanSphere ray cam) st).closestDist ≤ (p - cam).Length) := by
  intro l
  induction l with
  | nil => intro st; simp
  | cons s rest ih =>
    intro st
    simp only [List.foldl_cons]
    cases hI : Intersect ray s with
    | nil =>
      have hscan : scanSphere ray cam st s = st := by simp [scanSphere, hI]
      rw [hscan]
      obtain ⟨ih1, ih2, ih3⟩ := ih st
      refine ⟨?_, ih2, ?_⟩
      · rcases ih1 with h | ⟨s', hs', p', t', hI', heq⟩
        · exact Or.inl h
        · exact Or.inr ⟨s', List.mem_cons_of_mem _ hs', p', t', hI', heq⟩
      · intro s' hs' p' t' hI'
        rcases List.mem_cons.mp hs' with rfl | hmem
        · rw [hI] at hI'; cases hI'
        · exact ih3 s' hmem p' t' hI'
    | cons p t =>
      by_cases hd : (p - cam).Length < st.closestDist
      · have hscan : scanSphere ray cam st s = hitRecord cam s p := by
          simp [scanSphere, hI, hd]
        rw [hscan]
        obtain ⟨ih1, ih2, ih3⟩ := ih (hitRecord cam s p)
        refine ⟨?_, ?_, ?_⟩
        · rcases ih1 with h | ⟨s', hs', p', t', hI', heq⟩
          · exact Or.inr ⟨s, List.mem_cons_self s rest, p, t, hI, h⟩
          · exact Or.inr ⟨s', List.mem_cons_of_mem _ hs', p', t', hI', heq⟩
        · calc (rest.foldl (scanSphere ray cam) (hitRecord cam s p)).closestDist
              ≤ (hitRecord cam s p).closestDist := ih2
            _ ≤ st.closestDist := by rw [hitRecord_closestDist]; exact le_of_lt hd
        · intro s' hs' p' t' hI'
          rcases List.mem_cons.mp hs' with rfl | hmem
          · rw [hI] at hI'
            obtain ⟨rfl, -⟩ : p = p' ∧ t = t' := by
              exact ⟨(List.cons.injEq _ _ _ _ ▸ hI').1, (List.cons.injEq _ _ _ _ ▸ hI').2⟩
            exact le_trans ih2 (le_of_eq (hitRecord_closestDist cam s' p))
          · exact ih3 s' hmem p' t' hI'
      · have hscan : scanSphere ray cam st s = st := by simp [scanSphere, hI, hd]
        rw [hscan]
        obtain ⟨ih1, ih2, ih3⟩ := ih st
        refine ⟨?_, ih2, ?_⟩
        · rcases ih1 with h | ⟨s', hs', p', t', hI', heq⟩
          · exact Or.inl h
          · exact Or.inr ⟨s', List.mem_cons_of_mem _ hs', p', t', hI', heq⟩
        · intro s' hs' p' t' hI'
          rcases List.mem_cons.mp hs' with rfl | hmem
          · rw [hI] at hI'
            obtain ⟨rfl, -⟩ : p = p' ∧ t = t' := by
              exact ⟨(List.cons.injEq _ _ _ _ ▸ hI').1, (List.cons.injEq _ _ _ _ ▸ hI').2⟩
            exact le_trans ih2 (not_lt.mp hd)
          · exact ih3 s' hmem p' t' hI'

/-- A fully computed intersection used by several witnesses: the ray from the
origin along `+z` against the unit sphere at `(0,0,2)` hits at `(0,0,1)` then
`(0,0,3)`. -/
theorem demo_intersect_eq :
    Intersect (Ray.mk ⟨0, 0, 0⟩ ⟨0, 0, 1⟩) (Sphere.mk ⟨0, 0, 2⟩ 1 ⟨⟨1, 0, 0⟩, 1⟩) =
      [⟨0, 0, 1⟩, ⟨0, 0, 3⟩] := by
  have hd : discriminant (Ray.mk ⟨0, 0, 0⟩ ⟨0, 0, 1⟩)
      (Sphere.mk ⟨0, 0, 2⟩ 1 ⟨⟨1, 0, 0⟩, 1⟩) = 4 := by
    norm_num [discriminant, coeffA, coeffB, coeffC, Vector3.Dot]
  have hsq : Real.sqrt 4 = 2 := by
    rw [show (4 : ℝ) = 2 ^ 2 by norm_num, Real.sqrt_sq (by norm_num : (0 : ℝ) ≤ 2)]
  have hr0 : root0 (Ray.mk ⟨0, 0, 0⟩ ⟨0, 0, 1⟩)
      (Sphere.mk ⟨0, 0, 2⟩ 1 ⟨⟨1, 0, 0⟩, 1⟩) = 3 := by
    rw [root0, hd, hsq]; norm_num [coeffA, coeffB, Vector3.Dot]
  have hr1 : root1 (Ray.mk ⟨0, 0, 0⟩ ⟨0, 0, 1⟩)
      (Sphere.mk ⟨0, 0, 2⟩ 1 ⟨⟨1, 0, 0⟩, 1⟩) = 1 := by
    rw [root1, hd, hsq]; norm_num [coeffA, coeffB, Vector3.Dot]
  rw [Intersect, hd, hr0, hr1]
  norm_num [kEpsilon]
  refine ⟨?_, ?_⟩ <;> (ext <;> norm_num)

/-- The camera distance of the first hit of the demo scene is below `FLT_MAX`. -/
theorem demo_dist_lt :
    ((⟨0, 0, 1⟩ : Vector3) - ⟨0, 0, 0⟩).Length < FLT_MAX := by
  have h1 : ((⟨0, 0, 1⟩ : Vector3) - ⟨0, 0, 0⟩).Dot ((⟨0, 0, 1⟩ : Vector3) - ⟨0, 0, 0⟩) = 1 := by
    norm_num [Vector3.Dot]
  rw [Vector3.Length, h1, Real.sqrt_one, FLT_MAX]
  norm_num

/-- C5: if some sphere of the scene has a non-empty intersection with the ray
(at camera distance below the `FLT_MAX` sentinel), the closest-hit search
selects a hitting sphere whose first intersection point has minimal distance
to `cameraPosition`, and records exactly that sphere's material color and
roughness, the surface normal `normalize(hitPoint - center)`, the hit point,
and the view direction `normalize(hitPoint - cameraPosition)` for shading. -/
theorem closest_hit_selects (ray : Ray) (spheres : List Sphere) (cam : Vector3)
    (s₀ : Sphere) (p₀ : Vector3) (t₀ : List Vector3) (hs₀ : s₀ ∈ spheres)
    (hI₀ : Intersect ray s₀ = p₀ :: t₀) (hd₀ : (p₀ - cam).Length < FLT_MAX) :
    ∃ s ∈ spheres, ∃ p t, Intersect ray s = p :: t ∧
      closestHit ray spheres cam = hitRecord cam s p ∧
      ∀ s' ∈ spheres, ∀ p' t', Intersect ray s' = p' :: t' →
        (p - cam).Length ≤ (p' - cam).Length := by
  obtain ⟨h1, -, h3⟩ := foldl_scan_spec ray cam spheres initHit
  have hlt : (closestHit ray spheres cam).closestDist < FLT_MAX := by
    rw [closestHit_def]
    exact lt_of_le_of_lt (h3 s₀ hs₀ p₀ t₀ hI₀) hd₀
  rcases h1 with h | ⟨s, hs, p, t, hI, heq⟩
  · exfalso
    rw [closestHit_def, h, initHit_closestDist] at hlt
    exact lt_irrefl _ hlt
  · refine ⟨s, hs, p, t, hI, by rw [closestHit_def, heq], ?_⟩
    intro s' hs' p' t' hI'
    have hle := h3 s' hs' p' t' hI'
    rw [heq, hitRecord_closestDist] at hle
    exact hle

/-- Witness for C5: a one-sphere scene with an explicitly computed hit. -/
theorem closest_hit_selects_witness :
    Intersect (Ray.mk ⟨0, 0, 0⟩ ⟨0, 0, 1⟩) (Sphere.mk ⟨0, 0, 2⟩ 1 ⟨⟨1, 0, 0⟩, 1⟩) =
      [⟨0, 0, 1⟩, ⟨0, 0, 3⟩] ∧
    ((⟨0, 0, 1⟩ : Vector3) - ⟨0, 0, 0⟩).Length < FLT_MAX ∧
    (∃ s ∈ [Sphere.mk ⟨0, 0, 2⟩ 1 ⟨⟨1, 0, 0⟩, 1⟩], ∃ p t,
      Intersect (Ray.mk ⟨0, 0, 0⟩ ⟨0, 0, 1⟩) s = p :: t ∧
      closestHit (Ray.mk ⟨0, 0, 0⟩ ⟨0, 0, 1⟩) [Sphere.mk ⟨0, 0, 2⟩ 1 ⟨⟨1, 0, 0⟩, 1⟩]
        ⟨0, 0, 0⟩ = hitRecord ⟨0, 0, 0⟩ s p ∧
      ∀ s' ∈ [Sphere.mk ⟨0, 0, 2⟩ 1 ⟨⟨1, 0, 0⟩, 1⟩], ∀ p' t',
        Intersect (Ray.mk ⟨0, 0, 0⟩ ⟨0, 0, 1⟩) s' = p' :: t' →
          (p - (⟨0, 0, 0⟩ : Vector3)).Length ≤ (p' - (⟨0, 0, 0⟩ : Vector3)).Length) :=
  ⟨demo_intersect_eq, demo_dist_lt,
   closest_hit_selects _ _ _ _ _ _ (List.mem_singleton_self _) demo_intersect_eq
     demo_dist_lt⟩

/-- C9: the spec's blend identity over the embedded vector arithmetic:
`Lerp(diffuseColor, bounced, 1 - roughness)` equals
`diffuseColor * roughness + bounced * (1 - roughness)`, componentwise. -/
theorem lerp_blend_equiv (diffuseColor bounced : Vector3) (roughness : ℝ) :
    Lerp diffuseColor bounced (1 - roughness) =
      diffuseColor * roughness + bounced * (1 - roughness) := by
  ext <;> simp [Lerp] <;> ring

/-- C4: `TraceRayOcclusion` returns true iff some sphere of the scene has a
non-empty `Intersect` result with the ray; in particular it is false on the
empty scene. -/
theorem traceRayOcclusion_iff (ray : Ray) (spheres : List Sphere) :
    (TraceRayOcclusion ray spheres = true ↔
      ∃ s ∈ spheres, Intersect ray s ≠ []) ∧
    TraceRayOcclusion ray [] = false := by
  refine ⟨?_, rfl⟩
  induction spheres with
  | nil => simp [TraceRayOcclusion]
  | cons sphere rest ih =>
      by_cases h : Intersect ray sphere = []
      · simp [TraceRayOcclusion, h, ih]
      · simp [TraceRayOcclusion, h]

/-- C6: a ray that intersects no sphere of the scene makes the shading engine
return the fixed sky color at every depth, with no recursive call (the `no hit`
branch is terminal). -/
theorem miss_returns_sky (ray : Ray) (spheres : List Sphere) (cam : Vector3)
    (hmiss : ∀ s ∈ spheres, Intersect ray s = []) (recurse : ℤ) :
    TraceRayRecurse ray spheres cam recurse = SkyCol := by
  have hst : closestHit ray spheres cam = initHit := by
    obtain ⟨h1, -, -⟩ := foldl_scan_spec ray cam spheres initHit
    rcases h1 with h | ⟨s, hs, p, t, hI, -⟩
    · rw [closestHit_def, h]
    · rw [hmiss s hs] at hI; cases hI
  rw [TraceRayRecurse, hst]
  simp

/-- Witness for C6: the empty scene at depth 0. -/
theorem miss_returns_sky_witness :
    (∀ s ∈ ([] : List Sphere), Intersect (Ray.mk ⟨0, 0, 0⟩ ⟨0, 0, 1⟩) s = []) ∧
    TraceRayRecurse (Ray.mk ⟨0, 0, 0⟩ ⟨0, 0, 1⟩) [] ⟨0, 0, 0⟩ 0 = SkyCol :=
  ⟨by simp, miss_returns_sky _ _ _ (by simp) 0⟩

/-- C7: at or above the maximum depth (`recurse ≥ 8`), when the ray hits some
sphere, the shading engine makes no recursive call and returns exactly
`Lerp(diffuseColor, white, specular)` built from the locally computed,
shadow-attenuated lighting terms. -/
theorem depth_limit_terminal (ray : Ray) (spheres : List Sphere) (cam : Vector3)
    (recurse : ℤ) (h8 : 8 ≤ recurse)
    (s₀ : Sphere) (p₀ : Vector3) (t₀ : List Vector3) (hs₀ : s₀ ∈ spheres)
    (hI₀ : Intersect ray s₀ = p₀ :: t₀) (hd₀ : (p₀ - cam).Length < FLT_MAX) :
    TraceRayRecurse ray spheres cam recurse =
      Lerp (diffuseColorTerm (closestHit ray spheres cam) spheres) ⟨1, 1, 1⟩
        (specularTerm (closestHit ray spheres cam) spheres) := by
  have hlt : (closestHit ray spheres cam).closestDist < FLT_MAX := by
    obtain ⟨-, -, h3⟩ := foldl_scan_spec ray cam spheres initHit
    rw [closestHit_def]
    exact lt_of_le_of_lt (h3 s₀ hs₀ p₀ t₀ hI₀) hd₀
  have hne : ¬ (closestHit ray spheres cam).closestDist = FLT_MAX := ne_of_lt hlt
  have hrec : ¬ recurse < 8 := not_lt.mpr h8
  rw [TraceRayRecurse, if_neg hne, dif_neg hrec]

/-- Witness for C7: the one-sphere demo scene at depth 8. -/
theorem depth_limit_terminal_witness :
    (8 : ℤ) ≤ 8 ∧
    Intersect (Ray.mk ⟨0, 0, 0⟩ ⟨0, 0, 1⟩) (Sphere.mk ⟨0, 0, 2⟩ 1 ⟨⟨1, 0, 0⟩, 1⟩) =
      [⟨0, 0, 1⟩, ⟨0, 0, 3⟩] ∧
    ((⟨0, 0, 1⟩ : Vector3) - ⟨0, 0, 0⟩).Length < FLT_MAX ∧
    TraceRayRecurse (Ray.mk ⟨0, 0, 0⟩ ⟨0, 0, 1⟩)
        [Sphere.mk ⟨0, 0, 2⟩ 1 ⟨⟨1, 0, 0⟩, 1⟩] ⟨0, 0, 0⟩ 8 =
      Lerp (diffuseColorTerm (closestHit (Ray.mk ⟨0, 0, 0⟩ ⟨0, 0, 1⟩)
            [Sphere.mk ⟨0, 0, 2⟩ 1 ⟨⟨1, 0, 0⟩, 1⟩] ⟨0, 0, 0⟩)
          [Sphere.mk ⟨0, 0, 2⟩ 1 ⟨⟨1, 0, 0⟩, 1⟩]) ⟨1, 1, 1⟩
        (specularTerm (closestHit (Ray.mk ⟨0, 0, 0⟩ ⟨0, 0, 1⟩)
            [Sphere.mk ⟨0, 0, 2⟩ 1 ⟨⟨1, 0, 0⟩, 1⟩] ⟨0, 0, 0⟩)
          [Sphere.mk ⟨0, 0, 2⟩ 1 ⟨⟨1, 0, 0⟩, 1⟩]) :=
  ⟨le_refl 8, demo_intersect_eq, demo_dist_lt,
   depth_limit_terminal _ _ _ 8 (le_refl 8) _ _ _ (List.mem_singleton_self _)
     demo_intersect_eq demo_dist_lt⟩

theorem traceRayCallCount_le :
    ∀ (n : ℕ) (ray : Ray) (spheres : List Sphere) (cam : Vector3) (recurse : ℤ),
      (8 - recurse).toNat ≤ n → TraceRayCallCount ray spheres cam recurse ≤ n + 1 := by
  intro n
  induction n with
  | zero =>
    intro ray spheres cam recurse h
    have h8 : ¬ recurse < 8 := by omega
    rw [TraceRayCallCount]
    split <;> omega
  | succ n ih =>
    intro ray spheres cam recurse h
    rw [TraceRayCallCount]
    split
    · omega
    · split
      · rename_i hrec
        have hb := ih ⟨shadeOrigin (closestHit ray spheres cam),
          (closestHit ray spheres cam).normal⟩ spheres cam (recurse + 1) (by omega)
        omega
      · omega

/-- C8: the recursive shading engine terminates on every input: its call count
is well defined and bounded by `(8 - recurse).toNat + 1` (each non-terminal
call makes exactly one recursive call at `recurse + 1`, so the recursion depth
is bounded by the distance to the depth limit). -/
theorem trace_recursion_bounded (ray : Ray) (spheres : List Sphere)
    (cam : Vector3) (recurse : ℤ) :
    1 ≤ TraceRayCallCount ray spheres cam recurse ∧
    TraceRayCallCount ray spheres cam recurse ≤ (8 - recurse).toNat + 1 := by
  constructor
  · rw [TraceRayCallCount]
    split
    · omega
    · split <;> omega
  · exact traceRayCallCount_le _ ray spheres cam recurse (le_refl _)

theorem Vector3.normalize_length_le_one (v : Vector3) : v.Normalize.Length ≤ 1 := by
  rcases (Vector3.dot_self_nonneg v).lt_or_eq with h | h
  · have hL : (0 : ℝ) < v.Length := Real.sqrt_pos.mpr h
    have hL' : v.Length ≠ 0 := ne_of_gt hL
    have hsq : v.Length ^ 2 = v.Dot v := by
      rw [Vector3.Length]; exact Real.sq_sqrt (le_of_lt h)
    have hdd : (v * ((1 : ℝ) / v.Length)).Dot (v * ((1 : ℝ) / v.Length)) = 1 := by
      rw [Vector3.dot_smul_smul, ← hsq]
      field_simp
      ring
    rw [Vector3.Normalize, Vector3.Length, hdd, Real.sqrt_one]
  · have hdd : (v * ((1 : ℝ) / v.Length)).Dot (v * ((1 : ℝ) / v.Length)) = 0 := by
      rw [Vector3.dot_smul_smul, ← h]; ring
    rw [Vector3.Normalize, Vector3.Length, hdd, Real.sqrt_zero]
    norm_num

/-- Cauchy-Schwarz for the embedded dot product. -/
theorem Vector3.dot_le_lengths (u v : Vector3) : u.Dot v ≤ u.Length * v.Length := by
  have h2 : (u.Dot v) ^ 2 ≤ u.Dot u * (v.Dot v) := by
    simp only [Vector3.Dot]
    nlinarith [sq_nonneg (u.x * v.y - u.y * v.x), sq_nonneg (u.x * v.z - u.z * v.x),
      sq_nonneg (u.y * v.z - u.z * v.y)]
  calc u.Dot v ≤ |u.Dot v| := le_abs_self _
    _ = Real.sqrt ((u.Dot v) ^ 2) := (Real.sqrt_sq_eq_abs _).symm
    _ ≤ Real.sqrt (u.Dot u * (v.Dot v)) := Real.sqrt_le_sqrt h2
    _ = u.Length * v.Length := by
        rw [Real.sqrt_mul (Vector3.dot_self_nonneg u)]; rfl

theorem occlusionFactor_mem (st : HitState) (spheres : List Sphere) :
    0 ≤ occlusionFactor st spheres ∧ occlusionFactor st spheres ≤ 1 := by
  rw [occlusionFactor]; split <;> norm_num

theorem diffuseTerm_mem (st : HitState) (spheres : List Sphere)
    (hn : st.normal.Length ≤ 1) :
    0 ≤ diffuseTerm st spheres ∧ diffuseTerm st spheres ≤ 1 := by
  obtain ⟨ho0, ho1⟩ := occlusionFactor_mem st spheres
  have hL : LightDir.Length ≤ 1 := by
    rw [LightDir]; exact Vector3.normalize_length_le_one _
  have hle := Vector3.dot_le_lengths st.normal LightDir
  have h0u := Vector3.length_nonneg st.normal
  have h0v := Vector3.length_nonneg LightDir
  rw [diffuseTerm]
  split
  · rename_i hc
    have hd1 : st.normal.Dot LightDir ≤ 1 := by nlinarith
    exact ⟨mul_nonneg hc ho0, by nlinarith⟩
  · constructor <;> nlinarith

theorem specularTerm_mem (st : HitState) (spheres : List Sphere)
    (hn : st.normal.Length ≤ 1) :
    0 ≤ specularTerm st spheres ∧ specularTerm st spheres ≤ 1 := by
  obtain ⟨ho0, ho1⟩ := occlusionFactor_mem st spheres
  have hh : (halfVec st).Length ≤ 1 := by
    rw [halfVec]; exact Vector3.normalize_length_le_one _
  have hle := Vector3.dot_le_lengths st.normal (halfVec st)
  have h0u := Vector3.length_nonneg st.normal
  have h0v := Vector3.length_nonneg (halfVec st)
  have hbase : 0 ≤ (if st.normal.Dot (halfVec st) < 0 then 0 else st.normal.Dot (halfVec st)) ∧
      (if st.normal.Dot (halfVec st) < 0 then 0 else st.normal.Dot (halfVec st)) ≤ 1 := by
    split
    · exact ⟨le_refl 0, zero_le_one⟩
    · rename_i hc
      push_neg at hc
      exact ⟨hc, by nlinarith⟩
  obtain ⟨hb0, hb1⟩ := hbase
  have hp0 : 0 ≤ (if st.normal.Dot (halfVec st) < 0 then 0 else
      st.normal.Dot (halfVec st)) ^ (128 : ℕ) := pow_nonneg hb0 _
  have hp1 : (if st.normal.Dot (halfVec st) < 0 then 0 else
      st.normal.Dot (halfVec st)) ^ (128 : ℕ) ≤ 1 := pow_le_one₀ hb0 hb1
  rw [specularTerm]
  exact ⟨mul_nonneg hp0 ho0, by nlinarith⟩

theorem max_ambient_mem {d : ℝ} (h0 : 0 ≤ d) (h1 : d ≤ 1) :
    0 ≤ Max d (15 / 100) ∧ Max d (15 / 100) ≤ 1 := by
  rw [Max]
  split
  · exact ⟨h0, h1⟩
  · norm_num

theorem diffuseColorTerm_mem (st : HitState) (spheres : List Sphere)
    (hc : inUnit st.color) (hn : st.normal.Length ≤ 1) :
    inUnit (diffuseColorTerm st spheres) := by
  obtain ⟨hd0, hd1⟩ := diffuseTerm_mem st spheres hn
  obtain ⟨hm0, hm1⟩ := max_ambient_mem hd0 hd1
  obtain ⟨hx0, hx1, hy0, hy1, hz0, hz1⟩ := hc
  simp only [inUnit, diffuseColorTerm, Vector3.smul_x, Vector3.smul_y, Vector3.smul_z]
  refine ⟨?_, ?_, ?_, ?_, ?_, ?_⟩ <;> nlinarith

theorem lerp_white_in_unit (base : Vector3) (s : ℝ) (hb : inUnit base)
    (h0 : 0 ≤ s) (h1 : s ≤ 1) : inUnit (Lerp base ⟨1, 1, 1⟩ s) := by
  obtain ⟨hx0, hx1, hy0, hy1, hz0, hz1⟩ := hb
  simp only [inUnit, Lerp, Vector3.add_x, Vector3.add_y, Vector3.add_z,
    Vector3.sub_x, Vector3.sub_y, Vector3.sub_z,
    Vector3.smul_x, Vector3.smul_y, Vector3.smul_z]
  refine ⟨?_, ?_, ?_, ?_, ?_, ?_⟩ <;> nlinarith

theorem blend_in_unit (dc res : Vector3) (ρ : ℝ) (hdc : inUnit dc)
    (hres : inUnit res) (h0 : 0 ≤ ρ) (h1 : ρ ≤ 1) :
    inUnit (dc * ρ + res * (1 - ρ)) := by
  obtain ⟨hx0, hx1, hy0, hy1, hz0, hz1⟩ := hdc
  obtain ⟨gx0, gx1, gy0, gy1, gz0, gz1⟩ := hres
  simp only [inUnit, Vector3.add_x, Vector3.add_y, Vector3.add_z,
    Vector3.smul_x, Vector3.smul_y, Vector3.smul_z]
  refine ⟨?_, ?_, ?_, ?_, ?_, ?_⟩ <;> nlinarith

theorem skyCol_in_unit : inUnit SkyCol := by
  norm_num [inUnit, SkyCol]

theorem closestHit_props (ray : Ray) (spheres : List Sphere) (cam : Vector3)
    (hmat : ∀ s ∈ spheres, inUnit s.material.color ∧
      0 ≤ s.material.roughness ∧ s.material.roughness ≤ 1) :
    inUnit (closestHit ray spheres cam).color ∧
    0 ≤ (closestHit ray spheres cam).roughness ∧
    (closestHit ray spheres cam).roughness ≤ 1 ∧
    (closestHit ray spheres cam).normal.Length ≤ 1 := by
  obtain ⟨h1, -, -⟩ := foldl_scan_spec ray cam spheres initHit
  rw [closestHit_def]
  rcases h1 with h | ⟨s, hs, p, t, hI, heq⟩
  · rw [h]
    refine ⟨by norm_num [inUnit, initHit], by norm_num [initHit], by norm_num [initHit], ?_⟩
    show (Vector3.mk 0 1 0).Length ≤ 1
    rw [Vector3.Length]
    norm_num [Vector3.Dot]
  · rw [heq]
    obtain ⟨hcol, hr0, hr1⟩ := hmat s hs
    exact ⟨hcol, hr0, hr1, Vector3.normalize_length_le_one _⟩

theorem terminal_in_unit (st : HitState) (spheres : List Sphere)
    (hc : inUnit st.color) (hn : st.normal.Length ≤ 1) :
    inUnit (Lerp (diffuseColorTerm st spheres) ⟨1, 1, 1⟩ (specularTerm st spheres)) :=
  lerp_white_in_unit _ _ (diffuseColorTerm_mem st spheres hc hn)
    (specularTerm_mem st spheres hn).1 (specularTerm_mem st spheres hn).2

theorem bounce_in_unit (st : HitState) (spheres : List Sphere) (res : Vector3)
    (hc : inUnit st.color) (hn : st.normal.Length ≤ 1)
    (hρ0 : 0 ≤ st.roughness) (hρ1 : st.roughness ≤ 1) (hres : inUnit res) :
    inUnit (Lerp (diffuseColorTerm st spheres * st.roughness +
        (res * ((1 : ℝ) / 1)) * (1 - st.roughness)) ⟨1, 1, 1⟩
      (specularTerm st spheres)) := by
  have hres' : res * ((1 : ℝ) / 1) = res := by ext <;> simp
  rw [hres']
  exact lerp_white_in_unit _ _
    (blend_in_unit _ _ _ (diffuseColorTerm_mem st spheres hc hn) hres hρ0 hρ1)
    (specularTerm_mem st spheres hn).1 (specularTerm_mem st spheres hn).2

theorem trace_in_unit_aux (spheres : List Sphere)
    (hmat : ∀ s ∈ spheres, inUnit s.material.color ∧
      0 ≤ s.material.roughness ∧ s.material.roughness ≤ 1) :
    ∀ (n : ℕ) (ray : Ray) (cam : Vector3) (recurse : ℤ),
      (8 - recurse).toNat ≤ n → inUnit (TraceRayRecurse ray spheres cam recurse) := by
  intro n
  induction n with
  | zero =>
    intro ray cam recurse h
    obtain ⟨hc, -, -, hn⟩ := closestHit_props ray spheres cam hmat
    have h8 : ¬ recurse < 8 := by omega
    rw [TraceRayRecurse]
    split
    · exact skyCol_in_unit
    · exact terminal_in_unit _ _ hc hn
  | succ n ih =>
    intro ray cam recurse h
    obtain ⟨hc, hρ0, hρ1, hn⟩ := closestHit_props ray spheres cam hmat
    rw [TraceRayRecurse]
    split
    · exact skyCol_in_unit
    · split
      · rename_i hrec
        exact bounce_in_unit _ _ _ hc hn hρ0 hρ1
          (ih ⟨shadeOrigin (closestHit ray spheres cam),
            (closestHit ray spheres cam).normal⟩ cam (recurse + 1) (by omega))
      · exact terminal_in_unit _ _ hc hn

theorem saturate_id {a : ℝ} (h0 : 0 ≤ a) (h1 : a ≤ 1) : Saturate a = a := by
  rw [Saturate, if_neg (not_lt.mpr h0), if_neg (not_lt.mpr h1)]

/-- C10: for a scene whose material colors and roughness values all lie in
`[0,1]`, every channel of the color returned by the recursive shading engine
lies in `[0,1]` (over exact arithmetic), so the frame driver's per-channel
`Saturate` never changes a traced value. -/
theorem trace_color_in_unit (spheres : List Sphere)
    (hmat : ∀ s ∈ spheres, inUnit s.material.color ∧
      0 ≤ s.material.roughness ∧ s.material.roughness ≤ 1)
    (ray : Ray) (cam : Vector3) (recurse : ℤ) :
    inUnit (TraceRayRecurse ray spheres cam recurse) ∧
    Saturate (TraceRayRecurse ray spheres cam recurse).x =
      (TraceRayRecurse ray spheres cam recurse).x ∧
    Saturate (TraceRayRecurse ray spheres cam recurse).y =
      (TraceRayRecurse ray spheres cam recurse).y ∧
    Saturate (TraceRayRecurse ray spheres cam recurse).z =
      (TraceRayRecurse ray spheres cam recurse).z := by
  obtain ⟨hx0, hx1, hy0, hy1, hz0, hz1⟩ :=
    trace_in_unit_aux spheres hmat (8 - recurse).toNat ray cam recurse (le_refl _)
  exact ⟨⟨hx0, hx1, hy0, hy1, hz0, hz1⟩, saturate_id hx0 hx1,
    saturate_id hy0 hy1, saturate_id hz0 hz1⟩

/-- Witness for C10: the empty scene (its material hypothesis is vacuous). -/
theorem trace_color_in_unit_witness :
    (∀ s ∈ ([] : List Sphere), inUnit s.material.color ∧
      0 ≤ s.material.roughness ∧ s.material.roughness ≤ 1) ∧
    (inUnit (TraceRayRecurse (Ray.mk ⟨0, 0, 0⟩ ⟨0, 0, 1⟩) [] ⟨0, 0, 0⟩ 0) ∧
     Saturate (TraceRayRecurse (Ray.mk ⟨0, 0, 0⟩ ⟨0, 0, 1⟩) [] ⟨0, 0, 0⟩ 0).x =
       (TraceRayRecurse (Ray.mk ⟨0, 0, 0⟩ ⟨0, 0, 1⟩) [] ⟨0, 0, 0⟩ 0).x ∧
     Saturate (TraceRayRecurse (Ray.mk ⟨0, 0, 0⟩ ⟨0, 0, 1⟩) [] ⟨0, 0, 0⟩ 0).y =
       (TraceRayRecurse (Ray.mk ⟨0, 0, 0⟩ ⟨0, 0, 1⟩) [] ⟨0, 0, 0⟩ 0).y ∧
     Saturate (TraceRayRecurse (Ray.mk ⟨0, 0, 0⟩ ⟨0, 0, 1⟩) [] ⟨0, 0, 0⟩ 0).z =
       (TraceRayRecurse (Ray.mk ⟨0, 0, 0⟩ ⟨0, 0, 1⟩) [] ⟨0, 0, 0⟩ 0).z) :=
  ⟨by simp, trace_color_in_unit [] (by simp) (Ray.mk ⟨0, 0, 0⟩ ⟨0, 0, 1⟩) ⟨0, 0, 0⟩ 0⟩

end SoftRT
